import Mathlib

/-!
Verification of the Balthazar cord subsystem.

This file gives a shallow embedding of the cord/tether simulation found in
`src/cord_system.rs` (with the `CordSystem` record of `src/lib.rs`) and the
world initialization of `setup` in `src/main.rs`, and proves (or refutes)
the specification's claims about it.

Modelling conventions:
* `f32` values are modelled as exact rationals (`ℚ`).  Every arithmetic
  operation the code performs on lengths and positions is an exact rational
  operation here.
* ECS entities (bodies, joints, poles, attachment points) are opaque handles,
  modelled as `ℕ`.  `Commands` entity allocation is modelled by threading a
  fresh-id counter: stateful operations act on `CordSystem × ℕ` where the
  second component is the next fresh entity id.  Spawned transforms live in
  the ECS world, not in the `CordSystem` resource, so they are not part of
  the modelled state; world queries (`Query<&Transform, ...>`) are modelled
  as functions / option-valued environment data.
* Comparisons the code makes on Euclidean distances (`Vec2::distance`, an
  `f32` square root) are encoded exactly on squared distances: for
  `d = sqrt dsq` and a threshold `c`, `d ≥ c ↔ (c ≤ 0 ∨ c^2 ≤ dsq)` and
  `d ≤ c ↔ (0 ≤ c ∧ dsq ≤ c^2)`, since `d ≥ 0`.  Bridge lemmas relating the
  encodings to `Real.sqrt` are proved below.
-/

namespace Balthazar

/-- 2D vector (`bevy::Vec2`), modelled with exact rational coordinates. -/
abbrev Vec2 := ℚ × ℚ

/-- 3D vector (`bevy::Vec3`). -/
abbrev Vec3 := ℚ × ℚ × ℚ

/-- `Vec3::truncate`: drop the z coordinate. -/
def Vec3.truncate (v : Vec3) : Vec2 := (v.1, v.2.1)

/-- Squared 2D Euclidean distance between two points.  The code computes
`a.distance(b) = sqrt ((a.x-b.x)^2 + (a.y-b.y)^2)`; we keep the square to
stay in `ℚ`. -/
def dist2 (p q : Vec2) : ℚ := (p.1 - q.1) ^ 2 + (p.2 - q.2) ^ 2

theorem dist2_nonneg (p q : Vec2) : 0 ≤ dist2 p q := by
  have h1 : (0 : ℚ) ≤ (p.1 - q.1) ^ 2 := sq_nonneg _
  have h2 : (0 : ℚ) ≤ (p.2 - q.2) ^ 2 := sq_nonneg _
  simpa [dist2] using add_nonneg h1 h2

/-- Exact encoding of the comparison `dist p q >= c` (used by the extension
guard `distance >= current_length * 0.95`), where `dist p q = sqrt (dist2 p q)`. -/
def distGeB (p q : Vec2) (c : ℚ) : Bool := decide (c ≤ 0 ∨ c ^ 2 ≤ dist2 p q)

/-- Exact encoding of the comparison `sqrt dsq <= r` (used by
`find_closest_pole`'s `distance <= max_range`). -/
def distLeB (dsq r : ℚ) : Bool := decide (0 ≤ r ∧ dsq ≤ r ^ 2)

/-- The `distGeB` encoding agrees with the real-number Euclidean comparison. -/
theorem distGeB_iff_sqrt (p q : Vec2) (c : ℚ) :
    distGeB p q c = true ↔ (c : ℝ) ≤ Real.sqrt ((dist2 p q : ℚ) : ℝ) := by
  have hd : (0 : ℝ) ≤ ((dist2 p q : ℚ) : ℝ) := by exact_mod_cast dist2_nonneg p q
  simp only [distGeB, decide_eq_true_eq]
  constructor
  · rintro (hc | hc)
    · exact le_trans (by exact_mod_cast hc) (Real.sqrt_nonneg _)
    · have : ((c : ℝ)) ^ 2 ≤ ((dist2 p q : ℚ) : ℝ) := by exact_mod_cast hc
      rcases le_or_lt (c : ℝ) 0 with h0 | h0
      · exact le_trans h0 (Real.sqrt_nonneg _)
      · calc (c : ℝ) = Real.sqrt ((c : ℝ) ^ 2) := by
              rw [Real.sqrt_sq h0.le]
          _ ≤ Real.sqrt ((dist2 p q : ℚ) : ℝ) := Real.sqrt_le_sqrt this
  · intro h
    rcases le_or_lt c 0 with h0 | h0
    · exact Or.inl h0
    · right
      have hc0 : (0 : ℝ) ≤ (c : ℝ) := by exact_mod_cast h0.le
      have : ((c : ℝ)) ^ 2 ≤ Real.sqrt ((dist2 p q : ℚ) : ℝ) ^ 2 :=
        pow_le_pow_left₀ hc0 h 2
      rw [Real.sq_sqrt hd] at this
      exact_mod_cast this

/-- The `distLeB` encoding agrees with the real-number Euclidean comparison,
for a nonnegative squared distance. -/
theorem distLeB_iff_sqrt (dsq r : ℚ) (hd : 0 ≤ dsq) :
    distLeB dsq r = true ↔ Real.sqrt ((dsq : ℚ) : ℝ) ≤ (r : ℝ) := by
  have hd' : (0 : ℝ) ≤ ((dsq : ℚ) : ℝ) := by exact_mod_cast hd
  simp only [distLeB, decide_eq_true_eq]
  constructor
  · rintro ⟨hr, hle⟩
    have : ((dsq : ℚ) : ℝ) ≤ ((r : ℝ)) ^ 2 := by exact_mod_cast hle
    calc Real.sqrt ((dsq : ℚ) : ℝ) ≤ Real.sqrt ((r : ℝ) ^ 2) := Real.sqrt_le_sqrt this
      _ = (r : ℝ) := Real.sqrt_sq (by exact_mod_cast hr)
  · intro h
    have hr : (0 : ℝ) ≤ (r : ℝ) := le_trans (Real.sqrt_nonneg _) h
    constructor
    · exact_mod_cast hr
    · have := pow_le_pow_left₀ (Real.sqrt_nonneg ((dsq : ℚ) : ℝ)) h 2
      rw [Real.sq_sqrt hd'] at this
      exact_mod_cast this

/-- The `CordSystem` resource (`src/lib.rs`, also the struct of `src/main.rs`;
the extra render-only `visual_meshes` list of the later revision is
presentation state and carries no cord logic). -/
structure CordSystem where
  segments : List ℕ
  joints : List ℕ
  max_length : ℚ
  min_length : ℚ
  current_length : ℚ
  segment_length : ℚ
  segment_size : ℚ
  player_entity : ℕ
  is_retracting : Bool
  attached_pole : Option ℕ
  attachment_range : ℚ
  deriving Repr, DecidableEq

/-- A `CordSystem` together with the next fresh entity id (`Commands`
allocation state). -/
abbrev CordState := CordSystem × ℕ

/-- Rust's `as usize` cast of a nonnegative-or-negative `f32`: truncation
toward zero, saturating at 0 for negative values (used for
`(current_length / segment_length) as usize`). -/
def ratToUsize (q : ℚ) : ℕ := if q ≤ 0 then 0 else (⌊q⌋).toNat

/-- Target segment count `(current_length / segment_length) as usize`. -/
def cordLengthTarget (cs : CordSystem) : ℕ :=
  ratToUsize (cs.current_length / cs.segment_length)

/-- `add_cord_segment` (`src/cord_system.rs:184`).  Early-returns when there
are no segments or when the last segment's transform does not resolve in
`segment_query`.  Otherwise: spawns a new segment body (its transform, the
`normalize_or_zero` extrapolation toward the player axis, lives in the ECS
world and is not part of `CordSystem`), pops the old last-to-player joint,
pushes a new inter-segment joint and a new segment-to-player joint, and
pushes the new segment. -/
def add_cord_segment (segQ : ℕ → Option Vec3) (s : CordState) : CordState :=
  let cs := s.1
  match cs.segments.getLast? with
  | none => s
  | some lastSeg =>
    match segQ lastSeg with
    | none => s
    | some _lastPos =>
      let newSegment := s.2
      let newJoint := s.2 + 1
      let playerJoint := s.2 + 2
      ({ cs with
          joints := cs.joints.dropLast ++ [newJoint, playerJoint],
          segments := cs.segments ++ [newSegment] }, s.2 + 3)

/-- `remove_cord_segment` (`src/cord_system.rs:244`).  Refuses (returns the
state unchanged) when `segments.len() <= 2`; otherwise pops the last
segment, pops the last two joints, and re-creates one joint connecting the
new last segment to the player. -/
def remove_cord_segment (s : CordState) : CordState :=
  let cs := s.1
  if cs.segments.length ≤ 2 then s
  else
    let segments := cs.segments.dropLast
    let joints := cs.joints.dropLast.dropLast
    match segments.getLast? with
    | some _newLast =>
      let playerJoint := s.2
      ({ cs with segments := segments, joints := joints ++ [playerJoint] }, s.2 + 1)
    | none =>
      ({ cs with segments := segments, joints := joints }, s.2)

/-- `disconnect_cord_from_pole` (`src/cord_system.rs:358`): despawn and drop
the first joint when one exists, and clear `attached_pole`. -/
def disconnect_cord_from_pole (s : CordState) : CordState :=
  let cs := s.1
  match cs.joints with
  | [] => ({ cs with attached_pole := none }, s.2)
  | _ :: rest => ({ cs with joints := rest, attached_pole := none }, s.2)

/-- `attach_cord_to_pole` (`src/cord_system.rs:372`): when a first segment
exists, spawn a joint from the attachment entity to it and insert it at the
front of `joints`; record the attachment either way. -/
def attach_cord_to_pole (attachment_entity : ℕ) (s : CordState) : CordState :=
  let cs := s.1
  match cs.segments with
  | [] => ({ cs with attached_pole := some attachment_entity }, s.2)
  | _ :: _ =>
    let joint := s.2
    ({ cs with joints := joint :: cs.joints,
               attached_pole := some attachment_entity }, s.2 + 1)

/-- Per-tick environment of `handle_cord_retraction`: keyboard state, tick
delta time, and the transform queries the system reads. -/
structure RetractEnv where
  shouldRetract : Bool
  dt : ℚ
  playerPos : Option Vec3
  attachmentPos : ℕ → Option Vec3
  segmentPos : ℕ → Option Vec3

/-- The `while segments.len() > new_target_segments.max(2)` removal loop of
`handle_cord_retraction`.  Each iteration with the guard true strictly
shrinks `segments`, so fuel `segments.length` suffices for the loop to run
to completion. -/
def removeSegmentsLoop : ℕ → ℕ → CordState → CordState
  | 0, _, s => s
  | fuel + 1, target, s =>
    if max target 2 < s.1.segments.length then
      removeSegmentsLoop fuel target (remove_cord_segment s)
    else s

/-- The `while segments.len() < new_target_segments` addition loop of
`handle_cord_retraction`.  A successful `add_cord_segment` grows `segments`
by one, so fuel `target` suffices; when `add_cord_segment` early-returns
without adding, the Rust loop would spin forever (the query data cannot
change during the system run) — the fueled model simply stops, a difference
no claim depends on. -/
def addSegmentsLoop (segQ : ℕ → Option Vec3) : ℕ → ℕ → CordState → CordState
  | 0, _, s => s
  | fuel + 1, target, s =>
    if s.1.segments.length < target then
      addSegmentsLoop segQ fuel target (add_cord_segment segQ s)
    else s

/-- `handle_cord_retraction` (`src/cord_system.rs:131`), one tick.
Constants from the source: `retraction_speed = 300`, `extension_speed = 80`,
extension threshold factor `0.95`. -/
def handle_cord_retraction (env : RetractEnv) (s : CordState) : CordState :=
  let retraction_speed : ℚ := 300
  let extension_speed : ℚ := 80
  if env.shouldRetract = true ∧ s.1.min_length < s.1.current_length then
    let cs := { s.1 with
      is_retracting := true,
      current_length :=
        max (s.1.current_length - retraction_speed * env.dt) s.1.min_length }
    let target := cordLengthTarget cs
    removeSegmentsLoop cs.segments.length target (cs, s.2)
  else if env.shouldRetract = false then
    let s1 :=
      match env.playerPos, s.1.attached_pole with
      | some ppos, some attached_point =>
        match env.attachmentPos attached_point with
        | some apos =>
          if distGeB (Vec3.truncate ppos) (Vec3.truncate apos)
                (s.1.current_length * (95 / 100)) = true
              ∧ s.1.current_length < s.1.max_length then
            let cs := { s.1 with
              current_length :=
                min (s.1.current_length + extension_speed * env.dt) s.1.max_length }
            let target := cordLengthTarget cs
            addSegmentsLoop env.segmentPos target target (cs, s.2)
          else s
        | none => s
      | _, _ => s
    ({ s1.1 with is_retracting := false }, s1.2)
  else s

/-- Encoding of `distance < closest_distance` on squared distances; the
accumulator value `none` models the initial `closest_distance = f32::MAX`
sentinel (no candidate yet), which every in-range candidate beats. -/
def beatsBest (dsq : ℚ) (acc : Option ((ℕ × Vec3) × ℚ)) : Bool :=
  match acc with
  | none => true
  | some (_, bd) => decide (dsq < bd)

/-- The scan loop of `find_closest_pole`.  The accumulator carries the
current best pole together with its squared distance.  The source guard is
`distance <= max_range && distance < closest_distance`. -/
def closestPoleScan (player2 : Vec2) (max_range : ℚ) :
    List (ℕ × Vec3) → Option ((ℕ × Vec3) × ℚ) → Option ((ℕ × Vec3) × ℚ)
  | [], acc => acc
  | p :: rest, acc =>
    let dsq := dist2 player2 (Vec3.truncate p.2)
    if distLeB dsq max_range = true ∧ beatsBest dsq acc = true then
      closestPoleScan player2 max_range rest (some (p, dsq))
    else
      closestPoleScan player2 max_range rest acc

/-- `find_closest_pole` (`src/cord_system.rs:338`): scan all poles, keeping
the strictly closest one within `max_range` in 2D (XY-plane) distance. -/
def find_closest_pole (player_pos : Vec3) (poles : List (ℕ × Vec3))
    (max_range : ℚ) : Option (ℕ × Vec3) :=
  (closestPoleScan (Vec3.truncate player_pos) max_range poles none).map Prod.fst

/-- Per-tick environment of `handle_cord_attachment`: keyboard state, the
player transform, the pole query, and the existing attachment points
(entity, parent pole). -/
structure AttachEnv where
  spaceJustPressed : Bool
  playerPos : Option Vec3
  poles : List (ℕ × Vec3)
  attachments : List (ℕ × ℕ)

/-- `handle_cord_attachment` (`src/cord_system.rs:274`), one tick.  On a
Space press with a resolvable player transform: if attached, disconnect;
otherwise find the closest pole in range, reuse or lazily create its
attachment point (an entity spawn, modelled by the fresh counter), and
attach to it. -/
def handle_cord_attachment (env : AttachEnv) (s : CordState) : CordState :=
  if env.spaceJustPressed = true then
    match env.playerPos with
    | none => s
    | some ppos =>
      match s.1.attached_pole with
      | some _current_pole => disconnect_cord_from_pole s
      | none =>
        match find_closest_pole ppos env.poles s.1.attachment_range with
        | none => s
        | some (closest_pole, _pole_tf) =>
          match (env.attachments.find? (fun ap => ap.2 == closest_pole)).map Prod.fst with
          | some existing => attach_cord_to_pole existing s
          | none =>
            let attachment_entity := s.2
            attach_cord_to_pole attachment_entity (s.1, s.2 + 1)
  else s

/-- Initial segment count of `setup` in `src/main.rs`:
`(max_cord_length / segment_length) as usize = (500.0 / 20.0) as usize`. -/
def initial_num_segments : ℕ := ratToUsize (500 / 20)

/-- The `CordSystem` resource built by `setup` (`src/main.rs:113-138` for
the joints).  Entity ids follow the spawn order: poles `0..4`, the
`initial_num_segments` cord segments next, then the player, then the joints
(one pole-to-first-segment joint, `n - 1` inter-segment joints, one
last-segment-to-player joint); the cord starts attached to the center pole
at full length. -/
def setupCordSystem : CordSystem :=
  let center_pole : ℕ := 0
  let cord_entities := List.range' 5 initial_num_segments
  let player_entity := 5 + initial_num_segments
  let joint_entities :=
    List.range' (6 + initial_num_segments) (1 + (initial_num_segments - 1) + 1)
  { segments := cord_entities
    joints := joint_entities
    max_length := 500
    min_length := 50
    current_length := 500
    segment_length := 20
    segment_size := 8
    player_entity := player_entity
    is_retracting := false
    attached_pole := some center_pole
    attachment_range := 100 }

/-- The joint-count / segment-floor invariant that actually holds of the
code: at least two segments, and one more joint than segments while
attached (anchor joint + inter-segment joints + player joint), exactly as
many joints as segments while detached. -/
def cordInv (cs : CordSystem) : Prop :=
  2 ≤ cs.segments.length ∧
    cs.joints.length = cs.segments.length +
      (if cs.attached_pole.isSome then 1 else 0)

instance (cs : CordSystem) : Decidable (cordInv cs) := by
  unfold cordInv; infer_instance

/-- Iterated retraction ticks: `runTicks envs s k` is the state after the
first `k` ticks, tick `i` seeing environment `envs i`. -/
def runTicks (envs : ℕ → RetractEnv) (s : CordState) : ℕ → CordState
  | 0 => s
  | k + 1 => handle_cord_retraction (envs k) (runTicks envs s k)

/-- `catmull_rom_spline` (`src/cord_system.rs:8`): the standard cubic
Catmull-Rom basis evaluated at parameter `t` over four control points. -/
def catmull_rom_spline (p0 p1 p2 p3 : Vec2) (t : ℚ) : Vec2 :=
  let t2 := t * t
  let t3 := t2 * t
  ((1 : ℚ) / 2) •
    ((2 : ℚ) • p1 +
      t • (-p0 + p2) +
      t2 • ((2 : ℚ) • p0 - (5 : ℚ) • p1 + (4 : ℚ) • p2 - p3) +
      t3 • (-p0 + (3 : ℚ) • p1 - (3 : ℚ) • p2 + p3))

/-- `generate_spline_points` (`src/cord_system.rs:21`): fewer than two
control points yields nothing; exactly two are returned unchanged; otherwise
each consecutive segment is sampled `samples_per_segment` times at
`t = j / samples_per_segment` (with endpoint duplication for the boundary
windows) and the final control point is appended. -/
def generate_spline_points (control_points : List Vec2)
    (samples_per_segment : ℕ) : List Vec2 :=
  if control_points.length < 2 then []
  else if control_points.length = 2 then control_points
  else
    let spline_points :=
      (List.range (control_points.length - 1)).flatMap (fun i =>
        let p0 := if i = 0 then control_points.getD i (0, 0)
                  else control_points.getD (i - 1) (0, 0)
        let p1 := control_points.getD i (0, 0)
        let p2 := control_points.getD (i + 1) (0, 0)
        let p3 := if i + 2 < control_points.length then control_points.getD (i + 2) (0, 0)
                  else control_points.getD (i + 1) (0, 0)
        (List.range samples_per_segment).map (fun (j : ℕ) =>
          catmull_rom_spline p0 p1 p2 p3 ((j : ℚ) / (samples_per_segment : ℚ))))
    spline_points ++ [control_points.getLastD (0, 0)]


/-! ### Shape and preservation lemmas -/

/-- `add_cord_segment` either early-returns or performs exactly the
pop-one-joint / push-two-joints / push-one-segment update. -/
theorem add_cord_segment_shape (segQ : ℕ → Option Vec3) (s : CordState) :
    add_cord_segment segQ s = s ∨
    add_cord_segment segQ s =
      ({ s.1 with joints := s.1.joints.dropLast ++ [s.2 + 1, s.2 + 2],
                  segments := s.1.segments ++ [s.2] }, s.2 + 3) := by
  cases h1 : s.1.segments.getLast? with
  | none => exact Or.inl (by simp [add_cord_segment, h1])
  | some lastSeg =>
    cases h2 : segQ lastSeg with
    | none => exact Or.inl (by simp [add_cord_segment, h1, h2])
    | some pos => exact Or.inr (by simp [add_cord_segment, h1, h2])

/-- `remove_cord_segment` refuses below three segments and otherwise performs
exactly the pop-one-segment / pop-two-joints / push-one-joint update. -/
theorem remove_cord_segment_shape (s : CordState) :
    (s.1.segments.length ≤ 2 ∧ remove_cord_segment s = s) ∨
    (2 < s.1.segments.length ∧ remove_cord_segment s =
      ({ s.1 with segments := s.1.segments.dropLast,
                  joints := s.1.joints.dropLast.dropLast ++ [s.2] }, s.2 + 1)) := by
  by_cases h : s.1.segments.length ≤ 2
  · exact Or.inl ⟨h, by simp [remove_cord_segment, h]⟩
  · refine Or.inr ⟨lt_of_not_le h, ?_⟩
    cases h2 : s.1.segments.dropLast.getLast? with
    | none =>
      rw [List.getLast?_eq_none_iff] at h2
      have := congrArg List.length h2
      simp [List.length_dropLast] at this
      omega
    | some newLast => simp [remove_cord_segment, h, h2]

theorem add_cord_segment_current_length (segQ : ℕ → Option Vec3) (s : CordState) :
    (add_cord_segment segQ s).1.current_length = s.1.current_length := by
  rcases add_cord_segment_shape segQ s with h | h <;> rw [h]

theorem add_cord_segment_min_length (segQ : ℕ → Option Vec3) (s : CordState) :
    (add_cord_segment segQ s).1.min_length = s.1.min_length := by
  rcases add_cord_segment_shape segQ s with h | h <;> rw [h]

theorem add_cord_segment_max_length (segQ : ℕ → Option Vec3) (s : CordState) :
    (add_cord_segment segQ s).1.max_length = s.1.max_length := by
  rcases add_cord_segment_shape segQ s with h | h <;> rw [h]

theorem remove_cord_segment_current_length (s : CordState) :
    (remove_cord_segment s).1.current_length = s.1.current_length := by
  rcases remove_cord_segment_shape s with ⟨_, h⟩ | ⟨_, h⟩ <;> rw [h]

theorem remove_cord_segment_min_length (s : CordState) :
    (remove_cord_segment s).1.min_length = s.1.min_length := by
  rcases remove_cord_segment_shape s with ⟨_, h⟩ | ⟨_, h⟩ <;> rw [h]

theorem remove_cord_segment_max_length (s : CordState) :
    (remove_cord_segment s).1.max_length = s.1.max_length := by
  rcases remove_cord_segment_shape s with ⟨_, h⟩ | ⟨_, h⟩ <;> rw [h]

theorem removeSegmentsLoop_current_length (fuel target : ℕ) (s : CordState) :
    (removeSegmentsLoop fuel target s).1.current_length = s.1.current_length := by
  induction fuel generalizing s with
  | zero => rfl
  | succ fuel ih =>
    rw [removeSegmentsLoop]
    split
    · rw [ih, remove_cord_segment_current_length]
    · rfl

theorem removeSegmentsLoop_min_length (fuel target : ℕ) (s : CordState) :
    (removeSegmentsLoop fuel target s).1.min_length = s.1.min_length := by
  induction fuel generalizing s with
  | zero => rfl
  | succ fuel ih =>
    rw [removeSegmentsLoop]
    split
    · rw [ih, remove_cord_segment_min_length]
    · rfl

theorem removeSegmentsLoop_max_length (fuel target : ℕ) (s : CordState) :
    (removeSegmentsLoop fuel target s).1.max_length = s.1.max_length := by
  induction fuel generalizing s with
  | zero => rfl
  | succ fuel ih =>
    rw [removeSegmentsLoop]
    split
    · rw [ih, remove_cord_segment_max_length]
    · rfl

theorem addSegmentsLoop_current_length (segQ : ℕ → Option Vec3) (fuel target : ℕ)
    (s : CordState) :
    (addSegmentsLoop segQ fuel target s).1.current_length = s.1.current_length := by
  induction fuel generalizing s with
  | zero => rfl
  | succ fuel ih =>
    rw [addSegmentsLoop]
    split
    · rw [ih, add_cord_segment_current_length]
    · rfl

theorem addSegmentsLoop_min_length (segQ : ℕ → Option Vec3) (fuel target : ℕ)
    (s : CordState) :
    (addSegmentsLoop segQ fuel target s).1.min_length = s.1.min_length := by
  induction fuel generalizing s with
  | zero => rfl
  | succ fuel ih =>
    rw [addSegmentsLoop]
    split
    · rw [ih, add_cord_segment_min_length]
    · rfl

theorem addSegmentsLoop_max_length (segQ : ℕ → Option Vec3) (fuel target : ℕ)
    (s : CordState) :
    (addSegmentsLoop segQ fuel target s).1.max_length = s.1.max_length := by
  induction fuel generalizing s with
  | zero => rfl
  | succ fuel ih =>
    rw [addSegmentsLoop]
    split
    · rw [ih, add_cord_segment_max_length]
    · rfl

/-- Retracting branch: with retract held and slack above the minimum, the
tick sets `current_length` to `max (current_length - 300 * dt) min_length`. -/
theorem handle_retract_eq (env : RetractEnv) (s : CordState)
    (hr : env.shouldRetract = true)
    (h : s.1.min_length < s.1.current_length) :
    (handle_cord_retraction env s).1.current_length =
      max (s.1.current_length - 300 * env.dt) s.1.min_length := by
  simp [handle_cord_retraction, hr, h, removeSegmentsLoop_current_length]

/-- Retract held at (or below) the minimum length: the tick is a no-op. -/
theorem handle_retract_idle (env : RetractEnv) (s : CordState)
    (hr : env.shouldRetract = true)
    (h : ¬ s.1.min_length < s.1.current_length) :
    handle_cord_retraction env s = s := by
  simp [handle_cord_retraction, hr, h]

/-- Extension branch: with retract released, the cord attached, both
transforms resolving, the taut-distance guard satisfied and room to grow,
the tick sets `current_length` to `min (current_length + 80 * dt) max_length`. -/
theorem handle_extend_eq (env : RetractEnv) (s : CordState)
    (ppos apos : Vec3) (ap : ℕ)
    (hr : env.shouldRetract = false)
    (ha : s.1.attached_pole = some ap)
    (hp : env.playerPos = some ppos)
    (hq : env.attachmentPos ap = some apos)
    (hg : distGeB (Vec3.truncate ppos) (Vec3.truncate apos)
            (s.1.current_length * (95 / 100)) = true)
    (hlt : s.1.current_length < s.1.max_length) :
    (handle_cord_retraction env s).1.current_length =
      min (s.1.current_length + 80 * env.dt) s.1.max_length := by
  simp [handle_cord_retraction, hr, ha, hp, hq, hg, hlt,
    addSegmentsLoop_current_length]

/-- With retract released and the cord detached, the tick only clears the
`is_retracting` flag. -/
theorem handle_detached_eq (env : RetractEnv) (s : CordState)
    (hr : env.shouldRetract = false)
    (ha : s.1.attached_pole = none) :
    handle_cord_retraction env s = ({ s.1 with is_retracting := false }, s.2) := by
  cases hp : env.playerPos <;> simp [handle_cord_retraction, hr, ha, hp]

/-- A tick changes `current_length` in one of exactly three ways: the
retraction update, the extension update, or not at all. -/
theorem handle_current_length_cases (env : RetractEnv) (s : CordState) :
    (handle_cord_retraction env s).1.current_length =
        max (s.1.current_length - 300 * env.dt) s.1.min_length ∨
    (handle_cord_retraction env s).1.current_length =
        min (s.1.current_length + 80 * env.dt) s.1.max_length ∨
    (handle_cord_retraction env s).1.current_length = s.1.current_length := by
  unfold handle_cord_retraction
  split
  · exact Or.inl (by simp [removeSegmentsLoop_current_length])
  · split
    · cases hp : env.playerPos with
      | none => simp [hp]
      | some ppos =>
        cases ha : s.1.attached_pole with
        | none => simp [hp, ha]
        | some ap =>
          cases hq : env.attachmentPos ap with
          | none => simp [hp, ha, hq]
          | some apos =>
            simp only [hp, ha, hq]
            split
            · exact Or.inr (Or.inl (by simp [addSegmentsLoop_current_length]))
            · simp
    · exact Or.inr (Or.inr rfl)

/-- A tick never changes the configured `min_length` and `max_length`. -/
theorem handle_config_eq (env : RetractEnv) (s : CordState) :
    (handle_cord_retraction env s).1.min_length = s.1.min_length ∧
    (handle_cord_retraction env s).1.max_length = s.1.max_length := by
  unfold handle_cord_retraction
  split
  · constructor <;>
      simp [removeSegmentsLoop_min_length, removeSegmentsLoop_max_length]
  · split
    · cases hp : env.playerPos with
      | none => simp [hp]
      | some ppos =>
        cases ha : s.1.attached_pole with
        | none => simp [hp, ha]
        | some ap =>
          cases hq : env.attachmentPos ap with
          | none => simp [hp, ha, hq]
          | some apos =>
            simp only [hp, ha, hq]
            split
            · constructor <;>
                simp [addSegmentsLoop_min_length, addSegmentsLoop_max_length]
            · simp
    · exact ⟨rfl, rfl⟩

/-! ### Concrete example states used by witnesses and counterexamples -/

/-- A small example cord state (two segments, the configuration of the
repository's own unit tests: `min = 50`, `max = 150`, `segment_length = 20`). -/
def exCord (len : ℚ) (ap : Option ℕ) : CordSystem :=
  { segments := [1, 2], joints := [3, 4], max_length := 150, min_length := 50,
    current_length := len, segment_length := 20, segment_size := 8,
    player_entity := 0, is_retracting := false, attached_pole := ap,
    attachment_range := 100 }

/-- An example tick environment with no resolvable transforms. -/
def exEnv (r : Bool) (dt : ℚ) : RetractEnv :=
  { shouldRetract := r, dt := dt, playerPos := none,
    attachmentPos := fun _ => none, segmentPos := fun _ => none }

/-- An example extension-tick environment: player at distance `d` (on the
x-axis) from an anchor at the origin, retract released, `dt = 0.1`. -/
def exEnvAt (d : ℚ) : RetractEnv :=
  { shouldRetract := false, dt := 1 / 10, playerPos := some (d, 0, 0),
    attachmentPos := fun _ => some (0, 0, 0), segmentPos := fun _ => none }

/-! ### Claims C1, C2, C7, C8 -/

/-- C1: for every `CordSystem` state satisfying
`min_length <= current_length <= max_length`, one run of
`handle_cord_retraction` — for any input, any `dt >= 0`, and any
player/anchor transform data — leaves
`min_length <= current_length <= max_length` true. -/
theorem C1_length_bounds (env : RetractEnv) (s : CordState)
    (hdt : 0 ≤ env.dt)
    (h1 : s.1.min_length ≤ s.1.current_length)
    (h2 : s.1.current_length ≤ s.1.max_length) :
    (handle_cord_retraction env s).1.min_length ≤
        (handle_cord_retraction env s).1.current_length ∧
      (handle_cord_retraction env s).1.current_length ≤
        (handle_cord_retraction env s).1.max_length := by
  obtain ⟨hmin, hmax⟩ := handle_config_eq env s
  rw [hmin, hmax]
  have hmm : s.1.min_length ≤ s.1.max_length := le_trans h1 h2
  have h300 : (0 : ℚ) ≤ 300 * env.dt := mul_nonneg (by norm_num) hdt
  have h80 : (0 : ℚ) ≤ 80 * env.dt := mul_nonneg (by norm_num) hdt
  rcases handle_current_length_cases env s with h | h | h <;> rw [h]
  · exact ⟨le_max_right _ _, max_le (by linarith) hmm⟩
  · exact ⟨le_min (by linarith) hmm, min_le_right _ _⟩
  · exact ⟨h1, h2⟩

theorem C1_witness :
    (handle_cord_retraction (exEnv true (1 / 10)) (exCord 100 (some 9), 10)).1.min_length ≤
        (handle_cord_retraction (exEnv true (1 / 10)) (exCord 100 (some 9), 10)).1.current_length ∧
      (handle_cord_retraction (exEnv true (1 / 10)) (exCord 100 (some 9), 10)).1.current_length ≤
        (handle_cord_retraction (exEnv true (1 / 10)) (exCord 100 (some 9), 10)).1.max_length :=
  C1_length_bounds _ _ (by norm_num [exEnv]) (by norm_num [exCord]) (by norm_num [exCord])

/-- C2: if retract is not requested, the cord is attached, the player and
attachment transforms resolve, the 2D player-to-anchor distance is at least
`0.95 * current_length` (encoded exactly by `distGeB`), and
`current_length < max_length`, then one tick sets `current_length` to
`min (current_length + 80 * dt) max_length`. -/
theorem C2_extension_update (env : RetractEnv) (s : CordState)
    (ppos apos : Vec3) (ap : ℕ)
    (hr : env.shouldRetract = false)
    (ha : s.1.attached_pole = some ap)
    (hp : env.playerPos = some ppos)
    (hq : env.attachmentPos ap = some apos)
    (hg : distGeB (Vec3.truncate ppos) (Vec3.truncate apos)
            (s.1.current_length * (95 / 100)) = true)
    (hlt : s.1.current_length < s.1.max_length) :
    (handle_cord_retraction env s).1.current_length =
      min (s.1.current_length + 80 * env.dt) s.1.max_length :=
  handle_extend_eq env s ppos apos ap hr ha hp hq hg hlt

/-- Witness for C2, covering the two concrete scenarios of the claim:
from length 80 with the player at distance `76.8 = 80 * 0.96` one tick
gives exactly 88, and from length 149 one tick clamps to exactly 150. -/
theorem C2_witness :
    (handle_cord_retraction (exEnvAt (768 / 10)) (exCord 80 (some 9), 10)).1.current_length
        = 88 ∧
      (handle_cord_retraction (exEnvAt 160) (exCord 149 (some 9), 10)).1.current_length
        = 150 := by
  constructor
  · rw [C2_extension_update (exEnvAt (768 / 10)) (exCord 80 (some 9), 10)
      (768 / 10, 0, 0) (0, 0, 0) 9 rfl rfl rfl rfl
      (by norm_num [distGeB, dist2, Vec3.truncate, exCord]) (by norm_num [exCord])]
    norm_num [exCord, exEnvAt]
  · rw [C2_extension_update (exEnvAt 160) (exCord 149 (some 9), 10)
      (160, 0, 0) (0, 0, 0) 9 rfl rfl rfl rfl
      (by norm_num [distGeB, dist2, Vec3.truncate, exCord]) (by norm_num [exCord])]
    norm_num [exCord, exEnvAt]

/-- C7: in every tick in which `attached_pole` is `None`, `current_length`
never increases (extension never occurs), for any non-negative `dt` and any
player transform data. -/
theorem C7_no_extension_detached (env : RetractEnv) (s : CordState)
    (ha : s.1.attached_pole = none) (hdt : 0 ≤ env.dt) :
    (handle_cord_retraction env s).1.current_length ≤ s.1.current_length := by
  by_cases hr : env.shouldRetract = true
  · by_cases h : s.1.min_length < s.1.current_length
    · rw [handle_retract_eq env s hr h]
      have h300 : (0 : ℚ) ≤ 300 * env.dt := mul_nonneg (by norm_num) hdt
      exact max_le (by linarith) h.le
    · rw [handle_retract_idle env s hr h]
  · have hr' : env.shouldRetract = false := by simpa using hr
    rw [handle_detached_eq env s hr' ha]

theorem C7_witness :
    (handle_cord_retraction (exEnv true (1 / 10)) (exCord 100 none, 10)).1.current_length ≤
      100 := by
  have h := C7_no_extension_detached (exEnv true (1 / 10)) (exCord 100 none, 10)
    (by norm_num [exCord]) (by norm_num [exEnv])
  simpa [exCord] using h

/-- Counterexample to C8 as stated: with `attached_pole = None`, retract
held and `dt = 0.1` from length 100 (minimum 50), the tick retracts the
cord to 70, so `current_length` is not unchanged while detached. -/
theorem C8_counterexample :
    (handle_cord_retraction (exEnv true (1 / 10)) (exCord 100 none, 10)).1.current_length
        = 70 ∧
      (handle_cord_retraction (exEnv true (1 / 10)) (exCord 100 none, 10)).1.current_length
        ≠ 100 := by
  have h := handle_retract_eq (exEnv true (1 / 10)) (exCord 100 none, 10) rfl
    (by norm_num [exCord])
  rw [h]
  norm_num [exCord, exEnv]

/-- C8 (amended): when `attached_pole` is `None`, extension never occurs,
and if additionally retract is not requested, `current_length` is unchanged
regardless of the player transform data; retraction, however, does still
apply while detached when retract is held. -/
theorem C8_detached_no_change (env : RetractEnv) (s : CordState)
    (ha : s.1.attached_pole = none)
    (hr : env.shouldRetract = false) :
    (handle_cord_retraction env s).1.current_length = s.1.current_length := by
  rw [handle_detached_eq env s hr ha]

theorem C8_witness :
    (handle_cord_retraction (exEnv false (1 / 10)) (exCord 100 none, 10)).1.current_length
      = 100 := by
  rw [C8_detached_no_change (exEnv false (1 / 10)) (exCord 100 none, 10)
    (by norm_num [exCord]) rfl]
  norm_num [exCord]

/-! ### Claim C3: retraction convergence -/

theorem runTicks_min_length (envs : ℕ → RetractEnv) (s : CordState) (k : ℕ) :
    (runTicks envs s k).1.min_length = s.1.min_length := by
  induction k with
  | zero => rfl
  | succ k ih => rw [runTicks, (handle_config_eq _ _).1, ih]

/-- Closed form of the retract-held trajectory:
`length after k ticks = max (initial - 300 * dt * k) min_length`. -/
theorem retract_closed_form (envs : ℕ → RetractEnv) (s : CordState) (dt : ℚ)
    (hr : ∀ i, (envs i).shouldRetract = true)
    (hdts : ∀ i, (envs i).dt = dt)
    (hdt : 0 ≤ dt)
    (h0 : s.1.min_length ≤ s.1.current_length) :
    ∀ k : ℕ, (runTicks envs s k).1.current_length =
      max (s.1.current_length - 300 * dt * k) s.1.min_length := by
  intro k
  induction k with
  | zero =>
    simp [runTicks, max_eq_left h0]
  | succ k ih =>
    have hmin : (runTicks envs s k).1.min_length = s.1.min_length :=
      runTicks_min_length envs s k
    have hd : (0 : ℚ) ≤ 300 * dt := mul_nonneg (by norm_num) hdt
    have hcast : s.1.current_length - 300 * dt * ((k : ℚ) + 1) =
        (s.1.current_length - 300 * dt * k) - 300 * dt := by ring
    by_cases hgt : (runTicks envs s k).1.min_length < (runTicks envs s k).1.current_length
    · rw [runTicks, handle_retract_eq _ _ (hr k) hgt, hdts k, hmin, ih]
      push_cast
      rw [hcast, ← max_sub_sub_right, max_assoc,
        max_eq_right (sub_le_self s.1.min_length hd)]
    · rw [runTicks, handle_retract_idle _ _ (hr k) hgt, ih]
      rw [hmin, ih] at hgt
      have hle : s.1.current_length - 300 * dt * k ≤ s.1.min_length := by
        by_contra hcon
        push_neg at hcon
        exact hgt (lt_of_lt_of_le hcon (le_max_left _ _))
      push_cast
      rw [hcast, max_eq_right hle, max_eq_right (by linarith)]

/-- C3: starting above `min_length` with retract held every tick at a fixed
`dt > 0`, each tick sets `current_length` to
`max (current_length - 300 * dt) min_length`; the length is monotonically
non-increasing, never drops below `min_length`, and equals exactly
`min_length` after `ceil ((initial - min_length) / (300 * dt))` ticks. -/
theorem C3_retraction_convergence (envs : ℕ → RetractEnv) (s : CordState) (dt : ℚ)
    (hr : ∀ i, (envs i).shouldRetract = true)
    (hdts : ∀ i, (envs i).dt = dt)
    (hdt : 0 < dt)
    (h0 : s.1.min_length < s.1.current_length) :
    (∀ k, (runTicks envs s (k + 1)).1.current_length =
        max ((runTicks envs s k).1.current_length - 300 * dt) s.1.min_length) ∧
    (∀ k, (runTicks envs s (k + 1)).1.current_length ≤
        (runTicks envs s k).1.current_length) ∧
    (∀ k, s.1.min_length ≤ (runTicks envs s k).1.current_length) ∧
    (runTicks envs s
        (⌈(s.1.current_length - s.1.min_length) / (300 * dt)⌉.toNat)).1.current_length =
      s.1.min_length := by
  have cf := retract_closed_form envs s dt hr hdts hdt.le h0.le
  have hd : (0 : ℚ) ≤ 300 * dt := mul_nonneg (by norm_num) hdt.le
  have hlb : ∀ k, s.1.min_length ≤ (runTicks envs s k).1.current_length := by
    intro k; rw [cf k]; exact le_max_right _ _
  have step : ∀ k, (runTicks envs s (k + 1)).1.current_length =
      max ((runTicks envs s k).1.current_length - 300 * dt) s.1.min_length := by
    intro k
    have hcast : s.1.current_length - 300 * dt * ((k : ℚ) + 1) =
        (s.1.current_length - 300 * dt * k) - 300 * dt := by ring
    rw [cf (k + 1), cf k]
    push_cast
    rw [hcast, ← max_sub_sub_right, max_assoc,
      max_eq_right (sub_le_self s.1.min_length hd)]
  refine ⟨step, ?_, hlb, ?_⟩
  · intro k
    rw [step k]
    exact max_le (by linarith) (hlb k)
  · set kstar := (⌈(s.1.current_length - s.1.min_length) / (300 * dt)⌉).toNat with hk
    rw [cf kstar]
    have hpos : (0 : ℚ) < 300 * dt := by linarith
    have h1 : (s.1.current_length - s.1.min_length) / (300 * dt) ≤ (kstar : ℚ) := by
      calc (s.1.current_length - s.1.min_length) / (300 * dt) ≤
          ((⌈(s.1.current_length - s.1.min_length) / (300 * dt)⌉ : ℤ) : ℚ) := Int.le_ceil _
        _ ≤ ((kstar : ℤ) : ℚ) := by
            exact_mod_cast Int.self_le_toNat _
        _ = (kstar : ℚ) := by push_cast; rfl
    have h2 : s.1.current_length - s.1.min_length ≤ 300 * dt * kstar := by
      have := (div_le_iff₀ hpos).mp h1
      linarith
    exact max_eq_right (by linarith)

/-- Witness for C3: from length 100 with `min = 50` and `dt = 0.1`, one tick
gives exactly 70, and after `ceil (50 / 30) = 2` ticks the length is exactly
the minimum 50. -/
theorem C3_witness :
    (runTicks (fun _ => exEnv true (1 / 10)) (exCord 100 (some 9), 10) 1).1.current_length
        = 70 ∧
      (runTicks (fun _ => exEnv true (1 / 10)) (exCord 100 (some 9), 10) 2).1.current_length
        = 50 := by
  have h := C3_retraction_convergence (fun _ => exEnv true (1 / 10))
    (exCord 100 (some 9), 10) (1 / 10) (fun _ => rfl) (fun _ => rfl)
    (by norm_num) (by norm_num [exCord])
  have hceil : (⌈((exCord 100 (some 9), 10).1.current_length -
      (exCord 100 (some 9), 10).1.min_length) / (300 * (1 / 10 : ℚ))⌉).toNat = 2 := by
    have : ((exCord 100 (some 9), 10).1.current_length -
        (exCord 100 (some 9), 10).1.min_length) / (300 * (1 / 10 : ℚ)) = 5 / 3 := by
      norm_num [exCord]
    rw [this]
    have h2 : (⌈(5 / 3 : ℚ)⌉ : ℤ) = 2 := by
      rw [Int.ceil_eq_iff]
      norm_num
    rw [h2]
    rfl
  constructor
  · have h1 := h.1 0
    have h0 : (runTicks (fun _ => exEnv true (1 / 10))
        (exCord 100 (some 9), 10) 0).1.current_length = 100 := by
      simp [runTicks, exCord]
    rw [h0] at h1
    rw [h1]
    norm_num [exCord, max_eq_left]
  · have h2 := h.2.2.2
    rw [hceil] at h2
    rw [h2]
    norm_num [exCord]

/-! ### Claims C4, C5: segment/joint bookkeeping -/

theorem setup_segments_length : setupCordSystem.segments.length = 25 := by
  norm_num [setupCordSystem, initial_num_segments, ratToUsize, List.length_range']
  rfl

theorem setup_joints_length : setupCordSystem.joints.length = 26 := by
  norm_num [setupCordSystem, initial_num_segments, ratToUsize, List.length_range']
  rfl

/-- Counterexample to C4 as stated: at initialization the cord is attached
with 25 segments and `1 + 24 + 1 = 26` joints, but the claimed relation
demands `2 * 25 - 1 = 49` joints. -/
theorem C4_counterexample :
    setupCordSystem.attached_pole.isSome = true ∧
      setupCordSystem.segments.length = 25 ∧
      setupCordSystem.joints.length = 26 ∧
      setupCordSystem.joints.length ≠ 2 * setupCordSystem.segments.length - 1 := by
  refine ⟨rfl, setup_segments_length, setup_joints_length, ?_⟩
  rw [setup_segments_length, setup_joints_length]
  norm_num

theorem cordInv_add (segQ : ℕ → Option Vec3) (s : CordState)
    (h : cordInv s.1) : cordInv (add_cord_segment segQ s).1 := by
  obtain ⟨h2, hj⟩ := h
  rcases add_cord_segment_shape segQ s with hs | hs
  · rw [hs]; exact ⟨h2, hj⟩
  · rw [hs]
    unfold cordInv at *
    simp only [List.length_append, List.length_dropLast, List.length_cons,
      List.length_nil]
    by_cases hap : s.1.attached_pole.isSome = true <;> simp [hap] at hj ⊢ <;> omega

theorem cordInv_remove (s : CordState)
    (h : cordInv s.1) : cordInv (remove_cord_segment s).1 := by
  obtain ⟨h2, hj⟩ := h
  rcases remove_cord_segment_shape s with ⟨_, hs⟩ | ⟨hgt, hs⟩
  · rw [hs]; exact ⟨h2, hj⟩
  · rw [hs]
    unfold cordInv at *
    simp only [List.length_append, List.length_dropLast, List.length_cons,
      List.length_nil]
    by_cases hap : s.1.attached_pole.isSome = true <;> simp [hap] at hj ⊢ <;> omega

theorem cordInv_attach (a : ℕ) (s : CordState)
    (h : cordInv s.1) (hdet : s.1.attached_pole = none) :
    cordInv (attach_cord_to_pole a s).1 := by
  obtain ⟨h2, hj⟩ := h
  rw [hdet] at hj
  simp only [Option.isSome_none, Bool.false_eq_true, if_false, add_zero] at hj
  cases hseg : s.1.segments with
  | nil => rw [hseg] at h2; simp at h2
  | cons x rest =>
    rw [hseg] at h2 hj
    simp only [attach_cord_to_pole, hseg]
    simp [cordInv, List.length_cons] at h2 hj ⊢
    omega

theorem cordInv_detach (s : CordState)
    (h : cordInv s.1) (hatt : s.1.attached_pole.isSome = true) :
    cordInv (disconnect_cord_from_pole s).1 := by
  obtain ⟨h2, hj⟩ := h
  rw [if_pos hatt] at hj
  cases hjs : s.1.joints with
  | nil => rw [hjs] at hj; simp at hj
  | cons j rest =>
    rw [hjs] at hj
    simp only [disconnect_cord_from_pole, hjs]
    simp [cordInv, List.length_cons] at hj ⊢
    exact ⟨h2, by omega⟩

/-- C4 (amended): `len(segments) >= 2` together with the joint-count
relation that actually holds of the code — `len(joints) = len(segments) + 1`
when attached and `len(joints) = len(segments)` when detached — is
established at initialization and maintained by `add_cord_segment`,
`remove_cord_segment`, attach (from the detached state, as the state machine
issues it) and detach (from the attached state). -/
theorem C4_joint_invariant :
    cordInv setupCordSystem ∧
      (∀ (segQ : ℕ → Option Vec3) (s : CordState), cordInv s.1 →
        cordInv (add_cord_segment segQ s).1) ∧
      (∀ s : CordState, cordInv s.1 → cordInv (remove_cord_segment s).1) ∧
      (∀ (a : ℕ) (s : CordState), cordInv s.1 → s.1.attached_pole = none →
        cordInv (attach_cord_to_pole a s).1) ∧
      (∀ s : CordState, cordInv s.1 → s.1.attached_pole.isSome = true →
        cordInv (disconnect_cord_from_pole s).1) := by
  refine ⟨?_, cordInv_add, cordInv_remove, cordInv_attach, cordInv_detach⟩
  unfold cordInv
  rw [setup_segments_length, setup_joints_length,
    if_pos (show setupCordSystem.attached_pole.isSome = true from rfl)]
  norm_num

theorem C4_witness :
    cordInv (add_cord_segment (fun _ => some (0, 0, 0)) (setupCordSystem, 100)).1 ∧
      cordInv (remove_cord_segment (setupCordSystem, 100)).1 :=
  ⟨C4_joint_invariant.2.1 _ _ C4_joint_invariant.1,
    C4_joint_invariant.2.2.1 _ C4_joint_invariant.1⟩

theorem remove_cord_segment_floor (s : CordState)
    (h : 2 ≤ s.1.segments.length) :
    2 ≤ (remove_cord_segment s).1.segments.length := by
  rcases remove_cord_segment_shape s with ⟨_, hs⟩ | ⟨hgt, hs⟩
  · rw [hs]; exact h
  · rw [hs]
    simp only [List.length_dropLast]
    omega

/-- C5: `remove_cord_segment` is the identity whenever
`segments.len() <= 2`, and consequently the two-segment floor survives any
number of removals, iterated directly or through the retraction loop. -/
theorem C5_segment_floor :
    (∀ s : CordState, s.1.segments.length ≤ 2 → remove_cord_segment s = s) ∧
      (∀ (s : CordState) (n : ℕ), 2 ≤ s.1.segments.length →
        2 ≤ (remove_cord_segment^[n] s).1.segments.length) ∧
      (∀ (fuel target : ℕ) (s : CordState), 2 ≤ s.1.segments.length →
        2 ≤ (removeSegmentsLoop fuel target s).1.segments.length) := by
  refine ⟨?_, ?_, ?_⟩
  · intro s h
    simp [remove_cord_segment, h]
  · intro s n
    induction n generalizing s with
    | zero => exact fun h => h
    | succ n ih =>
      intro h
      rw [Function.iterate_succ_apply]
      exact ih _ (remove_cord_segment_floor s h)
  · intro fuel
    induction fuel with
    | zero => exact fun _ s h => h
    | succ fuel ih =>
      intro target s h
      rw [removeSegmentsLoop]
      split
      · exact ih target _ (remove_cord_segment_floor s h)
      · exact h

theorem C5_witness :
    remove_cord_segment (exCord 100 none, 5) = (exCord 100 none, 5) ∧
      2 ≤ (remove_cord_segment^[30] (setupCordSystem, 100)).1.segments.length :=
  ⟨C5_segment_floor.1 _ (by norm_num [exCord]),
    C5_segment_floor.2.1 _ 30 (by norm_num [setup_segments_length])⟩

/-! ### Claim C6: the attach command while attached -/

/-- The environment of an attach-command tick used in the C6 scenarios. -/
def exAttachEnv : AttachEnv :=
  { spaceJustPressed := true, playerPos := some (0, 0, 0),
    poles := [], attachments := [] }

/-- Counterexample to C6 as stated: issuing the attach command while
attached to anchor 7 is not a no-op — it detaches the cord
(`attached_pole` becomes `None` and the first joint is despawned). -/
theorem C6_counterexample :
    (handle_cord_attachment exAttachEnv (exCord 100 (some 7), 10)).1.attached_pole
        = none ∧
      (handle_cord_attachment exAttachEnv (exCord 100 (some 7), 10)).1.attached_pole
        ≠ some 7 ∧
      (handle_cord_attachment exAttachEnv (exCord 100 (some 7), 10)).1.joints
        ≠ (exCord 100 (some 7)).joints := by
  refine ⟨?_, ?_, ?_⟩ <;>
    simp [handle_cord_attachment, exAttachEnv, exCord, disconnect_cord_from_pole]

/-- C6 (amended): issuing the attachment command (Space) while the cord is
already attached toggles to the detached state: `attached_pole` becomes
`None`, the anchor-side joint is removed from the front of `joints`, and
the segments list is unchanged. -/
theorem C6_toggle_detach (env : AttachEnv) (s : CordState) (a : ℕ) (p : Vec3)
    (hs : env.spaceJustPressed = true)
    (hp : env.playerPos = some p)
    (ha : s.1.attached_pole = some a) :
    (handle_cord_attachment env s).1.attached_pole = none ∧
      (handle_cord_attachment env s).1.segments = s.1.segments ∧
      (handle_cord_attachment env s).1.joints = s.1.joints.drop 1 := by
  cases hj : s.1.joints with
  | nil => simp [handle_cord_attachment, hs, hp, ha, disconnect_cord_from_pole, hj]
  | cons j rest => simp [handle_cord_attachment, hs, hp, ha, disconnect_cord_from_pole, hj]

theorem C6_witness :
    (handle_cord_attachment exAttachEnv (exCord 80 (some 7), 10)).1.segments = [1, 2] := by
  have h := C6_toggle_detach exAttachEnv (exCord 80 (some 7), 10) 7 (0, 0, 0)
    rfl rfl rfl
  rw [h.2.1]
  rfl

/-! ### Claim C9: `find_closest_pole` -/

/-- Full characterization of the scan loop of `find_closest_pole`,
generalized over the accumulator: either no list element is both in range
and strictly closer than the accumulator (and the accumulator is returned),
or the result is the first-scanned element realizing the strictly smallest
in-range distance that beats the accumulator. -/
theorem closestPoleScan_spec (p2 : Vec2) (r : ℚ) (l : List (ℕ × Vec3)) :
    ∀ acc : Option ((ℕ × Vec3) × ℚ),
      (closestPoleScan p2 r l acc = acc ∧
        ∀ x ∈ l, distLeB (dist2 p2 (Vec3.truncate x.2)) r = true →
          beatsBest (dist2 p2 (Vec3.truncate x.2)) acc = false) ∨
      (∃ i y, l[i]? = some y ∧
        closestPoleScan p2 r l acc = some (y, dist2 p2 (Vec3.truncate y.2)) ∧
        distLeB (dist2 p2 (Vec3.truncate y.2)) r = true ∧
        beatsBest (dist2 p2 (Vec3.truncate y.2)) acc = true ∧
        (∀ x ∈ l, distLeB (dist2 p2 (Vec3.truncate x.2)) r = true →
          dist2 p2 (Vec3.truncate y.2) ≤ dist2 p2 (Vec3.truncate x.2)) ∧
        (∀ (j : ℕ) (x : ℕ × Vec3), j < i → l[j]? = some x →
          distLeB (dist2 p2 (Vec3.truncate x.2)) r = true →
          dist2 p2 (Vec3.truncate y.2) < dist2 p2 (Vec3.truncate x.2))) := by
  induction l with
  | nil =>
    intro acc
    exact Or.inl ⟨rfl, by simp⟩
  | cons x xs ih =>
    intro acc
    by_cases hg : distLeB (dist2 p2 (Vec3.truncate x.2)) r = true ∧
        beatsBest (dist2 p2 (Vec3.truncate x.2)) acc = true
    · have hstep : closestPoleScan p2 r (x :: xs) acc =
          closestPoleScan p2 r xs (some (x, dist2 p2 (Vec3.truncate x.2))) := by
        simp only [closestPoleScan]
        rw [if_pos hg]
      rcases ih (some (x, dist2 p2 (Vec3.truncate x.2))) with ⟨he, hall⟩ |
        ⟨i, y, hget, hres, hInR, hbeats, hmin, hstrict⟩
      · refine Or.inr ⟨0, x, by simp, by rw [hstep, he], hg.1, hg.2, ?_, ?_⟩
        · intro z hz hInRz
          rcases List.mem_cons.mp hz with rfl | hz'
          · exact le_refl _
          · have hb := hall z hz' hInRz
            simp only [beatsBest, decide_eq_false_iff_not, not_lt] at hb
            exact hb
        · intro j z hj _ _
          exact absurd hj (Nat.not_lt_zero j)
      · have hyx : dist2 p2 (Vec3.truncate y.2) < dist2 p2 (Vec3.truncate x.2) := by
          simpa [beatsBest] using hbeats
        refine Or.inr ⟨i + 1, y, by simpa using hget, by rw [hstep]; exact hres,
          hInR, ?_, ?_, ?_⟩
        · cases acc with
          | none => simp [beatsBest]
          | some b =>
            obtain ⟨bp, bd⟩ := b
            have hxb : dist2 p2 (Vec3.truncate x.2) < bd := by
              simpa [beatsBest] using hg.2
            simp only [beatsBest, decide_eq_true_eq]
            exact lt_trans hyx hxb
        · intro z hz hInRz
          rcases List.mem_cons.mp hz with rfl | hz'
          · exact hyx.le
          · exact hmin z hz' hInRz
        · intro j z hj hgz hInRz
          cases j with
          | zero =>
            obtain rfl : x = z := by simpa using hgz
            exact hyx
          | succ j' =>
            exact hstrict j' z (by omega) (by simpa using hgz) hInRz
    · have hstep : closestPoleScan p2 r (x :: xs) acc = closestPoleScan p2 r xs acc := by
        simp only [closestPoleScan]
        rw [if_neg hg]
      rcases ih acc with ⟨he, hall⟩ | ⟨i, y, hget, hres, hInR, hbeats, hmin, hstrict⟩
      · refine Or.inl ⟨by rw [hstep, he], ?_⟩
        intro z hz hInRz
        rcases List.mem_cons.mp hz with rfl | hz'
        · cases hb : beatsBest (dist2 p2 (Vec3.truncate z.2)) acc with
          | false => rfl
          | true => exact absurd ⟨hInRz, hb⟩ hg
        · exact hall z hz' hInRz
      · have hx_case : distLeB (dist2 p2 (Vec3.truncate x.2)) r = true →
            dist2 p2 (Vec3.truncate y.2) < dist2 p2 (Vec3.truncate x.2) := by
          intro hInRx
          cases acc with
          | none => exact absurd ⟨hInRx, by simp [beatsBest]⟩ hg
          | some b =>
            obtain ⟨bp, bd⟩ := b
            have h1 : dist2 p2 (Vec3.truncate y.2) < bd := by
              simpa [beatsBest] using hbeats
            have h2 : ¬ dist2 p2 (Vec3.truncate x.2) < bd := by
              intro hc
              exact hg ⟨hInRx, by simpa [beatsBest] using hc⟩
            exact lt_of_lt_of_le h1 (not_lt.mp h2)
        refine Or.inr ⟨i + 1, y, by simpa using hget, by rw [hstep]; exact hres,
          hInR, hbeats, ?_, ?_⟩
        · intro z hz hInRz
          rcases List.mem_cons.mp hz with rfl | hz'
          · exact (hx_case hInRz).le
          · exact hmin z hz' hInRz
        · intro j z hj hgz hInRz
          cases j with
          | zero =>
            obtain rfl : x = z := by simpa using hgz
            exact hx_case hInRz
          | succ j' =>
            exact hstrict j' z (by omega) (by simpa using hgz) hInRz

/-- C9: `find_closest_pole` returns `none` iff no pole's 2D (XY-plane)
Euclidean distance to the player is within `max_range` (the comparison
`dist <= max_range` encoded exactly by `distLeB` on squared distances, see
`distLeB_iff_sqrt`); otherwise it returns a pole of the list that is in
range, whose distance is least among all in-range poles, and every pole
scanned strictly earlier is strictly farther away — so the
earliest-iterated pole wins exact distance ties. -/
theorem C9_find_closest_pole (player_pos : Vec3) (poles : List (ℕ × Vec3))
    (max_range : ℚ) :
    (find_closest_pole player_pos poles max_range = none ↔
      ∀ x ∈ poles,
        distLeB (dist2 (Vec3.truncate player_pos) (Vec3.truncate x.2)) max_range
          = false) ∧
    (∀ e tf, find_closest_pole player_pos poles max_range = some (e, tf) →
      ∃ i, poles[i]? = some (e, tf) ∧
        distLeB (dist2 (Vec3.truncate player_pos) (Vec3.truncate tf)) max_range
          = true ∧
        (∀ x ∈ poles,
          distLeB (dist2 (Vec3.truncate player_pos) (Vec3.truncate x.2)) max_range
            = true →
          dist2 (Vec3.truncate player_pos) (Vec3.truncate tf) ≤
            dist2 (Vec3.truncate player_pos) (Vec3.truncate x.2)) ∧
        (∀ (j : ℕ) (x : ℕ × Vec3), j < i → poles[j]? = some x →
          dist2 (Vec3.truncate player_pos) (Vec3.truncate tf) <
            dist2 (Vec3.truncate player_pos) (Vec3.truncate x.2))) := by
  constructor
  · constructor
    · intro hnone z hz
      rcases closestPoleScan_spec (Vec3.truncate player_pos) max_range poles none
        with ⟨he, hall⟩ | ⟨i, y, hget, hres, hInR, hbeats, hmin, hstrict⟩
      · cases hb : distLeB (dist2 (Vec3.truncate player_pos) (Vec3.truncate z.2))
            max_range with
        | false => rfl
        | true =>
          have hfalse := hall z hz hb
          simp [beatsBest] at hfalse
      · unfold find_closest_pole at hnone
        rw [hres] at hnone
        simp at hnone
    · intro hall
      rcases closestPoleScan_spec (Vec3.truncate player_pos) max_range poles none
        with ⟨he, _⟩ | ⟨i, y, hget, hres, hInR, hbeats, hmin, hstrict⟩
      · unfold find_closest_pole
        rw [he]
        rfl
      · have hy := hall y (List.getElem?_mem hget)
        rw [hInR] at hy
        exact absurd hy (by simp)
  · intro e tf hres'
    unfold find_closest_pole at hres'
    rcases closestPoleScan_spec (Vec3.truncate player_pos) max_range poles none
      with ⟨he, hall⟩ | ⟨i, y, hget, hres, hInR, hbeats, hmin, hstrict⟩
    · rw [he] at hres'
      simp at hres'
    · rw [hres] at hres'
      obtain rfl : y = (e, tf) := by simpa using hres'
      refine ⟨i, hget, hInR, hmin, ?_⟩
      intro j z hj hgz
      by_cases hInRz : distLeB (dist2 (Vec3.truncate player_pos)
          (Vec3.truncate z.2)) max_range = true
      · exact hstrict j z hj hgz hInRz
      · have h1 : ¬ (0 ≤ max_range ∧
            dist2 (Vec3.truncate player_pos) (Vec3.truncate z.2) ≤ max_range ^ 2) := by
          simpa [distLeB] using hInRz
        have h2 : 0 ≤ max_range ∧
            dist2 (Vec3.truncate player_pos) (Vec3.truncate tf) ≤ max_range ^ 2 := by
          simpa [distLeB] using hInR
        have h3 : max_range ^ 2 <
            dist2 (Vec3.truncate player_pos) (Vec3.truncate z.2) :=
          not_le.mp (fun hle => h1 ⟨h2.1, hle⟩)
        exact lt_of_le_of_lt h2.2 h3

theorem C9_witness :
    find_closest_pole (0, 0, 0) [(1, (30, 40, 0))] 10 = none :=
  (C9_find_closest_pole (0, 0, 0) [(1, (30, 40, 0))] 10).1.mpr (by
    intro x hx
    simp only [List.mem_singleton] at hx
    subst hx
    simp only [distLeB, decide_eq_false_iff_not]
    norm_num [dist2, Vec3.truncate])

/-! ### Claim C10: spline endpoints -/

theorem catmull_rom_spline_zero (p0 p1 p2 p3 : Vec2) :
    catmull_rom_spline p0 p1 p2 p3 0 = p1 := by
  simp only [catmull_rom_spline, mul_zero, zero_smul, add_zero, zero_mul, smul_smul]
  norm_num

/-- C10: the Catmull-Rom basis at `t = 0` returns the second control point
exactly, and therefore `generate_spline_points` (with at least one sample
per segment, as the renderer's 8) produces a polyline that begins at the
first control point and ends exactly at the last control point whenever at
least two control points are given. -/
theorem C10_spline_endpoints :
    (∀ p0 p1 p2 p3 : Vec2, catmull_rom_spline p0 p1 p2 p3 0 = p1) ∧
      (∀ (cps : List Vec2) (n : ℕ), 2 ≤ cps.length → 1 ≤ n →
        (generate_spline_points cps n).head? = cps.head? ∧
          (generate_spline_points cps n).getLast? = cps.getLast?) := by
  refine ⟨catmull_rom_spline_zero, ?_⟩
  intro cps n h2 hn
  by_cases hlen : cps.length = 2
  · simp [generate_spline_points, hlen]
  · have h3 : 3 ≤ cps.length := by omega
    unfold generate_spline_points
    rw [if_neg (by omega), if_neg hlen]
    constructor
    · obtain ⟨m, rfl⟩ : ∃ m, n = m + 1 := ⟨n - 1, by omega⟩
      obtain ⟨k, hk⟩ : ∃ k, cps.length - 1 = k + 2 := ⟨cps.length - 3, by omega⟩
      rw [hk]
      rw [List.range_succ_eq_map]
      simp only [List.flatMap_cons, List.append_assoc]
      rw [List.head?_append_of_ne_nil]
      · rw [List.head?_map, List.range_succ_eq_map]
        simp only [List.head?_cons, Option.map_some']
        norm_num
        rw [catmull_rom_spline_zero]
        cases cps with
        | nil => simp at h2
        | cons a t => simp
      · rw [List.range_succ_eq_map]
        simp
    · rw [List.getLast?_concat]
      cases hcl : cps.getLast? with
      | none =>
        rw [List.getLast?_eq_none_iff] at hcl
        rw [hcl] at h2
        simp at h2
      | some b =>
        rw [List.getLastD_eq_getLast?, hcl]
        rfl

theorem C10_witness :
    (generate_spline_points [(0, 0), (4, 0), (4, 4)] 8).head? = some (0, 0) ∧
      (generate_spline_points [(0, 0), (4, 0), (4, 4)] 8).getLast? = some (4, 4) := by
  have h := C10_spline_endpoints.2 [(0, 0), (4, 0), (4, 4)] 8
    (by norm_num) (by norm_num)
  exact ⟨h.1, h.2⟩

end Balthazar
